import Mathlib

set_option maxRecDepth 8000

/-!
Shallow embedding of the PDF outline extractor found in src/src/core.py and
src/src/utils.py, together with proofs about its heading classification,
level assignment, per-page curation, deduplication and error handling.

Representation conventions:
- Font sizes are integers counting tenths of a point.  The source reads a
  span size only through round applied with one decimal, so a size is
  always an exact multiple of one tenth; a literal such as 0.5 becomes 5
  and the threshold 6 becomes 60.
- Bounding-box coordinates are likewise integers in tenths, and the two
  comparisons of the source that involve the fractions 1.5 and 1/2 are
  cross-multiplied, which is exact: gap greater than dominant times 1.5 is
  rendered as 2 times gap greater than 3 times dominant, and y0 less than
  height over 2 is rendered as 2 times y0 less than height.  The
  configured bold-size ratio is carried in hundredths and its comparison
  is cross-multiplied by 100 in the same exact way.
- Python strings are modelled by Lean strings; the Python operations
  strip, split, lower, upper test, substring test, startswith, endswith,
  replace and join are re-implemented below over the character list of the
  string, following the Python semantics the source relies on.
- The regular expressions used by the source are compiled by hand into
  character-list matchers; all of them are deterministic on their inputs,
  so no backtracking is needed.
-/

namespace PdfOutline

/-! Python string primitives. -/

/-- Tests whether the first list is an initial segment of the second. -/
def listIsPref : List Char → List Char → Bool
  | [], _ => true
  | _ :: _, [] => false
  | a :: as, b :: bs => a == b && listIsPref as bs

/-- Tests whether the first list occurs as a contiguous sublist of the second. -/
def subAt : List Char → List Char → Bool
  | n, [] => n.isEmpty
  | n, c :: cs => listIsPref n (c :: cs) || subAt n cs

/-- Python membership test of one string inside another. -/
def strIn (needle hay : String) : Bool := subAt needle.data hay.data

/-- Python startswith with a single argument. -/
def pyStarts (t p : String) : Bool := listIsPref p.data t.data

/-- Python startswith with a tuple argument. -/
def startsAny (t : String) (ps : List String) : Bool := ps.any (fun p => pyStarts t p)

/-- Python endswith. -/
def pyEnds (t p : String) : Bool := listIsPref p.data.reverse t.data.reverse

/-- Python lower, restricted to the ASCII case mapping. -/
def pyLower (t : String) : String := String.mk (t.data.map Char.toLower)

/-- Python strip with no argument: removes leading and trailing whitespace. -/
def pyStrip (t : String) : String :=
  String.mk (((t.data.dropWhile Char.isWhitespace).reverse.dropWhile Char.isWhitespace).reverse)

/-- Python isupper: at least one cased character and no lowercase character,
restricted to ASCII letters. -/
def pyIsUpper (t : String) : Bool :=
  t.data.any Char.isAlpha && !(t.data.any Char.isLower)

/-- Splits a character list at whitespace runs, dropping empty chunks, the way
Python split with no argument does.  The first argument accumulates the
current word reversed. -/
def wordsGo : List Char → List Char → List (List Char)
  | cur, [] => if cur.isEmpty then [] else [cur.reverse]
  | cur, c :: cs =>
    if c.isWhitespace then
      if cur.isEmpty then wordsGo [] cs else cur.reverse :: wordsGo [] cs
    else wordsGo (c :: cur) cs

/-- Python split with no argument. -/
def pyWords (t : String) : List String := (wordsGo [] t.data).map String.mk

/-- Splits a character list on every occurrence of a separator character,
keeping empty chunks, the way Python split with an explicit one-character
separator does. -/
def splitChar (sep : Char) : List Char → List (List Char)
  | [] => [[]]
  | c :: cs =>
    if c == sep then [] :: splitChar sep cs
    else
      match splitChar sep cs with
      | [] => [[c]]
      | w :: ws => (c :: w) :: ws

/-- Python split with an explicit one-character separator. -/
def pySplit (t : String) (sep : Char) : List String := (splitChar sep t.data).map String.mk

/-- Replaces every occurrence of a nonempty pattern, scanning left to right,
the way Python replace does.  The fuel argument is instantiated with the
length of the text, which bounds the recursion depth because every step
consumes at least one character. -/
def replGo (pat repl : List Char) : Nat → List Char → List Char
  | _, [] => []
  | 0, l => l
  | fuel + 1, c :: cs =>
    if pat ≠ [] ∧ listIsPref pat (c :: cs) = true then
      repl ++ replGo pat repl fuel ((c :: cs).drop pat.length)
    else c :: replGo pat repl fuel cs

/-- Python replace. -/
def pyReplace (t pat repl : String) : String :=
  String.mk (replGo pat.data repl.data t.data.length t.data)

/-- Python join of a list of strings with a separator. -/
def joinWith (sep : String) : List String → String
  | [] => ""
  | [x] => x
  | x :: y :: rest => x ++ sep ++ joinWith sep (y :: rest)

/-- Python fullmatch against one or more digits. -/
def allDigits (t : String) : Bool := !t.data.isEmpty && t.data.all Char.isDigit

/-! Hand-compiled forms of the regular expressions of the source. -/

/-- Consumes the longest run of groups consisting of a dot followed by at
least one digit, the greedy reading of the group part of the numbered-heading
pattern of rule 3.  The fuel argument bounds the recursion depth; every step
consumes at least two characters, so the length of the input suffices. -/
def eatGroupsGo : Nat → List Char → List Char
  | 0, cs => cs
  | fuel + 1, cs =>
    match cs with
    | '.' :: rest =>
      if (rest.takeWhile Char.isDigit).isEmpty then cs
      else eatGroupsGo fuel (rest.dropWhile Char.isDigit)
    | _ => cs

/-- Greedy consumption of dot-digit groups at the head of the list. -/
def eatDotDigitGroups (cs : List Char) : List Char := eatGroupsGo cs.length cs

/-- Match of the pattern digits, then any number of dot-digit groups, then at
least one whitespace character, at the start of the text: the rule 3 pattern
of the classifier.  The pattern is deterministic, so greedy scanning without
backtracking is exact. -/
def matchesNumbered (t : String) : Bool :=
  let cs := t.data
  !(cs.takeWhile Char.isDigit).isEmpty &&
    (match eatDotDigitGroups (cs.dropWhile Char.isDigit) with
     | c :: _ => c.isWhitespace
     | [] => false)

/-- Match of the pattern digits, then one dot, then at least one whitespace
character, at the start of the text: the numbering pattern of the level
assigner. -/
def matchesNumDotWs (t : String) : Bool :=
  !(t.data.takeWhile Char.isDigit).isEmpty &&
    (match t.data.dropWhile Char.isDigit with
     | '.' :: c :: _ => c.isWhitespace
     | _ => false)

/-- Match of the appendix pattern: the literal word Appendix, a space, one
capital letter, a colon, then at least one whitespace character. -/
def matchesAppendix (t : String) : Bool :=
  pyStarts t "Appendix " &&
    (match (t.data.drop 9) with
     | c :: ':' :: w :: _ => ('A' ≤ c && c ≤ 'Z') && w.isWhitespace
     | _ => false)

/-! A stable insertion sort parameterised by a boolean comes-before-or-equal
test, mirroring the stable sort of Python. -/

/-- Inserts an element in front of the first list element it compares
less-or-equal to. -/
def insertLe {α : Type} (le : α → α → Bool) (x : α) : List α → List α
  | [] => [x]
  | y :: ys => if le x y then x :: y :: ys else y :: insertLe le x ys

/-- Stable insertion sort by a boolean comes-before-or-equal test. -/
def sortLe {α : Type} (le : α → α → Bool) : List α → List α
  | [] => []
  | x :: xs => insertLe le x (sortLe le xs)

/-! Data model: the shape of the parsed page dictionaries the source reads
from the external parsing library. -/

/-- Bounding box of a line, in tenths of a point. -/
structure BBox where
  x0 : Int
  y0 : Int
  x1 : Int
  y1 : Int
deriving DecidableEq

/-- Atomic styled text run.  The size field carries the already rounded
value, in tenths of a point, because the source rounds the raw size at every
read. -/
structure Span where
  text : String
  size : Int
  font : String
deriving DecidableEq

/-- Visual line: an ordered run of spans plus the line bounding box. -/
structure Line where
  spans : List Span
  bbox : BBox
deriving DecidableEq

/-- Page block.  A block of the parser dictionary may lack the lines key, in
which case the source skips it; that case is the none value. -/
structure Block where
  lines : Option (List Line)
deriving DecidableEq

/-- One parsed page: its blocks and the page rectangle height (tenths). -/
structure PageData where
  blocks : List Block
  rectHeight : Int
deriving DecidableEq

/-- One document: its file path and its parsed pages in order. -/
structure Document where
  path : String
  pages : List PageData
deriving DecidableEq

/-- One outline entry of the output. -/
structure Entry where
  level : String
  text : String
  page : Int
deriving DecidableEq

/-- Per-page heading candidate, carrying the vertical position used for
intra-page ordering and dropped before output. -/
structure Cand where
  level : String
  text : String
  page : Int
  y : Int
deriving DecidableEq

/-- The extraction result: a title, the outline entries in order, and an
error description if extraction failed. -/
structure Outline where
  title : String
  outline : List Entry
  error : Option String
deriving DecidableEq

/-- Document style profile computed once per document. -/
structure StyleProfile where
  dominant_font_size : Int
  font_sizes_by_prominence : List Int
deriving DecidableEq

/-- Modelled from the spec: the numeric thresholds of the configuration file
config/settings.json, which is not present under src/.  Sizes and size
differences are in tenths of a point; the bold ratio is in hundredths, and
its comparison in the classifier is cross-multiplied by 100, which is
exact. -/
structure Thresholds where
  font_size_difference_from_dominant : Int
  bold_font_size_min_ratio_to_dominant_pct : Int
  max_words_for_bold_heading : Nat
  max_words_for_all_caps_heading : Nat
deriving DecidableEq

/-- Modelled from the spec: the configuration of the extractor, loaded from
config/settings.json, which is not present under src/.  The header and
footer noise patterns are a configured regex list applied through a
case-insensitive search, modelled as an abstract boolean matcher.  The
maximum headings per page is optional because the source reads it once with
a guarded lookup defaulting to 4 and once with a direct lookup that raises
when the key is absent. -/
structure Settings where
  thresholds : Thresholds
  common_heading_keywords : List String
  noise : String → Bool
  max_headings_per_page : Option Nat

/-- Dedup key of a heading: text, level, output page number. -/
abbrev Key := String × String × Int

/-- Boldness test of src/src/utils.py: a substring test on the lowercased
font name. -/
def is_bold (sp : Span) : Bool :=
  let f := pyLower sp.font
  strIn "bold" f || strIn "black" f || strIn "heavy" f

/-- Italic test of src/src/utils.py. -/
def is_italic (sp : Span) : Bool :=
  let f := pyLower sp.font
  strIn "italic" f || strIn "oblique" f

/-! Style profiling. -/

/-- Spans of one page in document order, skipping blocks without lines. -/
def pageSpans (pg : PageData) : List Span :=
  pg.blocks.flatMap (fun b => (b.lines.getD []).flatMap (fun ln => ln.spans))

/-- Lines of one page in document order, skipping blocks without lines. -/
def pageLines (pg : PageData) : List Line :=
  pg.blocks.flatMap (fun b => b.lines.getD [])

/-- All spans of the document in scan order. -/
def docSpans (d : Document) : List Span := d.pages.flatMap pageSpans

/-- All rounded span sizes of the document in scan order. -/
def observedSizes (d : Document) : List Int := (docSpans d).map Span.size

/-- Sizes of the bold spans of the document in scan order. -/
def boldSizes (d : Document) : List Int :=
  ((docSpans d).filter (fun sp => is_bold sp = true)).map Span.size

/-- First-occurrence scan with an accumulator of already seen keys. -/
def firstOccsGo (seen : List Int) : List Int → List Int
  | [] => []
  | x :: xs => if x ∈ seen then firstOccsGo seen xs else x :: firstOccsGo (x :: seen) xs

/-- Keys of a Python counting dict in first-insertion order: the first
occurrence order of the scanned list. -/
def firstOccs (l : List Int) : List Int := firstOccsGo [] l

/-- Final state of a Python counting dict built over the list: keys in
first-insertion order paired with their total occurrence counts. -/
def tally (l : List Int) : List (Int × Nat) :=
  (firstOccs l).map (fun k => (k, l.count k))

/-- Lookup in a counting dict with default 0. -/
def lookupCount (l : List (Int × Nat)) (k : Int) : Nat :=
  (((l.find? (fun p => p.1 == k)).map Prod.snd).getD 0)

/-- One step of the Python max with a count key: keeps the incumbent unless
the challenger has a strictly larger count, so the first maximum in
insertion order wins, as Python max does. -/
def foldBest (best q : Int × Nat) : Int × Nat :=
  if best.2 < q.2 then q else best

/-- Python max over the entries of a counting dict, keyed by count. -/
def pyMaxByCount (l : List (Int × Nat)) : Int :=
  match l with
  | [] => 0
  | p :: rest => (rest.foldl foldBest p).1

/-- Dominant font size from the scanned size list: the most frequent size
among sizes above 6 points (60 tenths), falling back to the most frequent
size overall when every size is at most 6 points. -/
def dominantFrom (sizes : List Int) : Int :=
  let counts := tally sizes
  let filtered := counts.filter (fun p => 60 < p.1)
  if filtered = [] then pyMaxByCount counts else pyMaxByCount filtered

/-- Comes-before-or-equal test for the prominence ladder: descending by the
pair of size and bold occurrence count, the reverse sort of the source. -/
def promGe (bold : List (Int × Nat)) (a b : Int) : Bool :=
  b < a || (a == b && lookupCount bold b ≤ lookupCount bold a)

/-- The prominence ladder: distinct sizes sorted descending by size and bold
occurrence count.  The set of distinct sizes is materialised in
first-occurrence order; the sort output does not depend on that choice since
distinct sizes never compare equal. -/
def prominenceLadder (d : Document) : List Int :=
  sortLe (promGe (tally (boldSizes d))) (firstOccs (observedSizes d))

/-- Style profiling pass of the source: dominant size and prominence ladder.
When the document has no spans the source returns early and both fields keep
their constructor defaults of 0 and the empty list. -/
def analyze_document_styles (d : Document) : StyleProfile :=
  if observedSizes d = [] then ⟨0, []⟩
  else ⟨dominantFrom (observedSizes d), prominenceLadder d⟩

/-! Heading classification. -/

/-- Heading likelihood classifier of the source: an ordered battery of rules,
the line being accepted as soon as one rule fires.  The flag for the first
page is received but never read, exactly as in the source. -/
def is_likely_heading (s : Settings) (st : StyleProfile) (text : String) (span : Span)
    (line_bbox : BBox) (prev_line_bbox : Option BBox) (first_page_flag : Bool) : Bool :=
  if st.dominant_font_size + s.thresholds.font_size_difference_from_dominant < span.size then
    true
  else if is_bold span = true ∧
      st.dominant_font_size * s.thresholds.bold_font_size_min_ratio_to_dominant_pct ≤ 100 * span.size ∧
      ((pyWords text).length < s.thresholds.max_words_for_bold_heading ∨ pyIsUpper text = true) then
    true
  else if matchesNumbered text = true ∧
      (st.dominant_font_size - 10 ≤ span.size ∨ is_bold span = true) then
    true
  else if (s.common_heading_keywords.any (fun kw => strIn (pyLower kw) (pyLower text))) = true ∧
      ((is_bold span = true ∧ st.dominant_font_size - 5 ≤ span.size) ∨
       (st.dominant_font_size + 5 ≤ span.size) ∨
       (pyEnds text ":" = true ∧ st.dominant_font_size - 10 ≤ span.size)) then
    true
  else if pyIsUpper text = true ∧
      (pyWords text).length < s.thresholds.max_words_for_all_caps_heading ∧
      st.dominant_font_size - 10 ≤ span.size then
    true
  else if (match prev_line_bbox with
           | some pb => decide (3 * st.dominant_font_size < 2 * (line_bbox.y0 - pb.y1))
           | none => false) = true ∧
      st.dominant_font_size - 5 ≤ span.size ∧ pyEnds text "." = false then
    true
  else if text ∈ (["Summary", "Background", "The Business Plan to be Developed",
        "Approach and Specific Proposal Requirements",
        "Evaluation and Awarding of Contract"] : List String) ∧
      (is_bold span = true ∨ st.dominant_font_size + 5 ≤ span.size) then
    true
  else if matchesAppendix text = true ∧
      (is_bold span = true ∨ st.dominant_font_size < span.size) then
    true
  else if pyEnds text ":" = true ∧ is_bold span = true ∧ (pyWords text).length < 10 ∧
      st.dominant_font_size - 5 ≤ span.size ∧
      startsAny text ["Equitable", "Shared", "Local", "Access", "Guidance", "Training",
        "Provincial", "Technological"] = true then
    true
  else if strIn "?" text = true ∧ pyStarts text "What could the" = true ∧
      (is_bold span = true ∨ st.dominant_font_size ≤ span.size) then
    true
  else if pyStarts text "For each Ontario" = true ∧ pyEnds text "mean:" = true ∧
      (is_bold span = true ∨ st.dominant_font_size - 10 ≤ span.size) then
    true
  else
    false

/-! Level assignment. -/

/-- Index of the first occurrence of a size in a list, the Python list index
operation wrapped in the try of the source. -/
def idxOfSize (fs : Int) : List Int → Option Nat
  | [] => none
  | x :: xs => if x = fs then some 0 else (idxOfSize fs xs).map (fun i => i + 1)

/-- Prominence-ladder fallback of the level assigner: position of the size in
the ladder, plus one, capped at 4; the sentinel when the size is absent. -/
def fallback_level (st : StyleProfile) (font_size : Int) : String :=
  match idxOfSize font_size st.font_sizes_by_prominence with
  | some idx => "H" ++ toString (min (idx + 1) 4)
  | none => "H_UNKNOWN"

/-- Level assigner of the source: numbering depth first, then the literal
overrides, then the prominence-ladder fallback. -/
def assign_heading_level (st : StyleProfile) (font_size : Int) (text : String) : String :=
  if matchesNumDotWs text = true then
    let parts := pySplit ((pySplit text ' ').headD "") '.'
    let num_dots := (parts.filter (fun p => p ≠ "")).length
    if num_dots = 1 then "H1"
    else if num_dots = 2 then "H2"
    else if num_dots = 3 then "H3"
    else if num_dots = 4 then "H4"
    else "H_UNKNOWN"
  else if text ∈ (["Summary", "Background", "The Business Plan to be Developed",
      "Approach and Specific Proposal Requirements",
      "Evaluation and Awarding of Contract"] : List String) then "H2"
  else if text = "Milestones" then "H3"
  else if matchesAppendix text = true then "H2"
  else if pyEnds text ":" = true ∧
      startsAny text ["Equitable", "Shared", "Local", "Access", "Guidance", "Training",
        "Provincial", "Technological"] = true then "H3"
  else if strIn "?" text = true ∧ pyStarts text "What could the" = true then "H3"
  else if pyStarts text "For each Ontario" = true ∧ pyEnds text "mean:" = true then "H4"
  else if strIn "Ontario’s Digital Library" text = true ∧
      st.dominant_font_size + 10 < font_size then "H1"
  else if strIn "A Critical Component for Implementing Ontario’s Road Map to Prosperity Strategy"
      text = true ∧ st.dominant_font_size + 5 < font_size then "H1"
  else fallback_level st font_size

/-- Texts that begin with one or more digits, then a dot, then a plain space:
the single-group shape of the numbering pattern. -/
def numDotSpaceForm (t : String) : Bool :=
  !(t.data.takeWhile Char.isDigit).isEmpty &&
    listIsPref ['.', ' '] (t.data.dropWhile Char.isDigit)

/-! Per-page curation. -/

/-- Severity rank of a level string, the lookup with default 99 of the
source. -/
def levelOrder (lvl : String) : Nat :=
  if lvl = "H1" then 1
  else if lvl = "H2" then 2
  else if lvl = "H3" then 3
  else if lvl = "H4" then 4
  else if lvl = "H_UNKNOWN" then 5
  else 99

/-- Comes-before-or-equal test on candidates: level severity first, vertical
position second, matching the sort key of the source. -/
def candLe (a b : Cand) : Bool :=
  levelOrder a.level < levelOrder b.level ||
    (levelOrder a.level == levelOrder b.level && a.y ≤ b.y)

/-- Dedup key of a candidate. -/
def candKey (c : Cand) : Key := (c.text, c.level, c.page)

/-- Dedup key of an outline entry. -/
def entryKey (e : Entry) : Key := (e.text, e.level, e.page)

/-- Drops the vertical position of a curated candidate. -/
def toEntry (c : Cand) : Entry := ⟨c.level, c.text, c.page⟩

/-- Concatenated stripped text of a line. -/
def lineText (ln : Line) : String :=
  pyStrip (joinWith "" (ln.spans.map Span.text))

/-- Eligibility test of one span inside the prominent-text fallback: nonempty
stripped text, not noise, not the document title, near-dominant size or bold,
and more than one word or a length above 3 that is not purely numeric. -/
def fallbackEligible (s : Settings) (st : StyleProfile) (docTitle : String) (sp : Span) : Bool :=
  let text := pyStrip sp.text
  !(text == "") &&
  !(s.noise text || (docTitle != "" && text == docTitle)) &&
  ((st.dominant_font_size - 5 ≤ sp.size || is_bold sp) &&
   (1 < (pyWords text).length || (3 < text.data.length && !allDigits text)))

/-- Candidate texts of the prominent-text fallback, with their vertical
positions, in scan order. -/
def prominentCands (s : Settings) (st : StyleProfile) (pg : PageData) (docTitle : String) :
    List (String × Int) :=
  (pageLines pg).flatMap (fun ln =>
    ln.spans.filterMap (fun sp =>
      if fallbackEligible s st docTitle sp = true then some (pyStrip sp.text, ln.bbox.y0)
      else none))

/-- Prominent-text fallback of the source: the topmost eligible span text of
the page, if any. -/
def find_first_prominent_text (s : Settings) (st : StyleProfile) (pg : PageData)
    (docTitle : String) : Option String :=
  match sortLe (fun a b => a.2 ≤ b.2) (prominentCands s st pg docTitle) with
  | [] => none
  | c :: _ => some c.1

/-- Rolling state of the per-page line scan: the document-wide dedup set, the
previous line bounding box, and the candidates of the current page. -/
structure LoopState where
  processed : List Key
  prev : Option BBox
  cands : List Cand
deriving DecidableEq

/-- Processing of one line of a page: the skip filters, the classifier, the
title suppression, the special second-page filter of the file03 document,
level assignment and the document-wide dedup.  Every branch records the line
bounding box as the new previous box, as the source does. -/
def stepLine (s : Settings) (st : StyleProfile) (title path : String) (page_idx : Nat)
    (out : Int) (ls : LoopState) (ln : Line) : LoopState :=
  if lineText ln = "" then ⟨ls.processed, some ln.bbox, ls.cands⟩
  else if s.noise (lineText ln) = true then ⟨ls.processed, some ln.bbox, ls.cands⟩
  else if s.thresholds.max_words_for_bold_heading * 2 < (pyWords (lineText ln)).length then
    ⟨ls.processed, some ln.bbox, ls.cands⟩
  else
    match ln.spans with
    | [] => ⟨ls.processed, some ln.bbox, ls.cands⟩
    | first_span :: _ =>
      if is_likely_heading s st (lineText ln) first_span ln.bbox ls.prev (page_idx == 0) = true then
        if title ≠ "" ∧ lineText ln = title ∧ 0 < page_idx then
          ⟨ls.processed, some ln.bbox, ls.cands⟩
        else if pyEnds path "file03.pdf" = true ∧ page_idx = 1 ∧
            lineText ln ≠ "Ontario’s Digital Library" ∧
            lineText ln ≠ "A Critical Component for Implementing Ontario’s Road Map to Prosperity Strategy" ∧
            strIn "The Ontario Digital Library will make Ontario a better place" (lineText ln) = true then
          ⟨ls.processed, some ln.bbox, ls.cands⟩
        else
          if (lineText ln, assign_heading_level st first_span.size (lineText ln), out) ∈ ls.processed then
            ⟨ls.processed, some ln.bbox, ls.cands⟩
          else
            ⟨(lineText ln, assign_heading_level st first_span.size (lineText ln), out) :: ls.processed,
             some ln.bbox,
             ls.cands ++ [⟨assign_heading_level st first_span.size (lineText ln), lineText ln, out, ln.bbox.y0⟩]⟩
      else ⟨ls.processed, some ln.bbox, ls.cands⟩

/-- Post-processing of one page: sort by severity then position, truncate to
the configured maximum, or fall back to a single prominent text when no
candidate survived.  The truncating branch reads the maximum with a direct
dictionary lookup, which raises a key error when the configuration lacks the
key, while the comparison just before uses a guarded lookup defaulting
to 4. -/
def curatePage (s : Settings) (st : StyleProfile) (title : String) (pg : PageData)
    (out : Int) (cands : List Cand) : Except String (List Entry) :=
  let sorted := sortLe candLe cands
  if s.max_headings_per_page.getD 4 < sorted.length then
    match s.max_headings_per_page with
    | some m => .ok ((sorted.take m).map toEntry)
    | none => .error "\x27max_headings_per_page\x27"
  else if sorted ≠ [] then .ok (sorted.map toEntry)
  else
    match find_first_prominent_text s st pg title with
    | some t => .ok [⟨"H1", t, out⟩]
    | none => .ok []

/-- Page loop of the extractor: returns the emitted entries, the final dedup
set, and the error raised mid-loop if any.  Entries of pages processed before
a failure are kept, as the source keeps its partially filled outline list
when the top-level handler catches the exception. -/
def process_pages (s : Settings) (st : StyleProfile) (title path : String) (offset : Int) :
    Nat → List Key → List PageData → List Entry × List Key × Option String
  | _, procs, [] => ([], procs, none)
  | page_idx, procs, pg :: rest =>
    if ((page_idx : Int) + 1 + offset) < 1 then
      process_pages s st title path offset (page_idx + 1) procs rest
    else
      match curatePage s st title pg ((page_idx : Int) + 1 + offset)
          ((pageLines pg).foldl
            (stepLine s st title path page_idx ((page_idx : Int) + 1 + offset))
            ⟨procs, none, []⟩).cands with
      | .error e =>
        ([], ((pageLines pg).foldl
            (stepLine s st title path page_idx ((page_idx : Int) + 1 + offset))
            ⟨procs, none, []⟩).processed, some e)
      | .ok es =>
        let r := process_pages s st title path offset (page_idx + 1)
          ((pageLines pg).foldl
            (stepLine s st title path page_idx ((page_idx : Int) + 1 + offset))
            ⟨procs, none, []⟩).processed rest
        (es ++ r.1, r.2.1, r.2.2)

/-! Title resolution. -/

/-- Comes-before-or-equal test for the title fragments: descending by
character length, the reverse sort with a length key of the source. -/
def strLenGe (a b : String) : Bool := b.data.length ≤ a.data.length

/-- Title resolution of the source.  The parameter setIter stands for the
iteration order of a Python string set: building the set of title candidates
and listing it yields the deduplicated candidates in an order that depends on
the process hash seed, so the embedding receives that enumeration as an
argument. -/
def resolveTitle (s : Settings) (setIter : List String → List String) (d : Document) : String :=
  let t :=
    match d.pages with
    | [] => ""
    | p0 :: _ =>
      let pr := (pageLines p0).foldl (fun (acc : String × String) ln =>
        if strIn "RFP: Request for Proposal" (lineText ln) = true ∧
            2 * ln.bbox.y0 < p0.rectHeight then (lineText ln, acc.2)
        else if strIn "To Present a Proposal for Developing the Business Plan for the Ontario Digital Library"
            (lineText ln) = true ∧ 2 * ln.bbox.y0 < p0.rectHeight then (acc.1, lineText ln)
        else acc) ("", "")
      let t1 :=
        if pr.1 ≠ "" ∧ pr.2 ≠ "" then
          pyReplace (pyReplace (pyStrip (pyReplace (pr.1 ++ " " ++ pr.2) "\n" " "))
            "Reeeequest f quest foooor Pr r Proposal quest f oposal" "Request for Proposal")
            "Pr r" "Pr"
        else ""
      if t1 ≠ "" then t1
      else
        let scan := (pageSpans p0).foldl (fun (acc : List String × Int) sp =>
          if acc.2 < sp.size then ([pyStrip sp.text], sp.size)
          else if sp.size = acc.2 then (acc.1 ++ [pyStrip sp.text], acc.2)
          else acc) ([], 0)
        if scan.1 ≠ [] then
          let pot := pyStrip (joinWith " " (sortLe strLenGe (setIter scan.1)))
          if 5 < pot.data.length ∧ s.noise pot = false then pot else ""
        else ""
  if t ≠ "" ∧ (strIn "TOPJUMP" t = true ∨ strIn "TRAMPOLINE PARK" t = true ∨
      strIn "YOU\x27RE INVITED" t = true) then ""
  else t

/-- Page-number offset of a document: minus one for the file03 document whose
first physical page is a cover, zero otherwise. -/
def docOffset (d : Document) : Int :=
  if pyEnds d.path "file03.pdf" = true then -1 else 0

/-- Whole-document extraction: style profiling, title resolution, then the
page loop, with the mid-loop error, if any, reported in the error field while
the entries gathered before the failure are kept. -/
def extract_outline (s : Settings) (setIter : List String → List String) (d : Document) :
    Outline :=
  let st := analyze_document_styles d
  let title := resolveTitle s setIter d
  let r := process_pages s st title d.path (docOffset d) 0 [] d.pages
  ⟨title, r.1, r.2.2⟩

/-- First-occurrence deduplication scan over strings with an accumulator of
already seen elements. -/
def dedupStrGo (seen : List String) : List String → List String
  | [] => []
  | x :: xs => if x ∈ seen then dedupStrGo seen xs else x :: dedupStrGo (x :: seen) xs

/-- First-occurrence deduplication of a string list: one admissible
enumeration order of a Python string set. -/
def dedupFirstStr (l : List String) : List String := dedupStrGo [] l

/-- Reversed first-occurrence deduplication: another admissible enumeration
order of a Python string set, as the hash-dependent order of a fresh process
may differ from insertion order. -/
def revSetIter (l : List String) : List String := (dedupFirstStr l).reverse

/-! Concrete instances used by the closed theorems below. -/

/-- Concrete thresholds: difference 2 points, bold ratio 90 percent, word
caps of 10. -/
def thr0 : Thresholds := ⟨20, 90, 10, 10⟩

/-- Concrete settings with the maximum headings key present. -/
def s0 : Settings := ⟨thr0, [], fun _ => false, some 4⟩

/-- Concrete settings whose configuration lacks the maximum headings key. -/
def s7 : Settings := ⟨thr0, [], fun _ => false, none⟩

/-- Concrete style profile: dominant size 12 points, one-rung ladder. -/
def st1 : StyleProfile := ⟨120, [120]⟩

/-- Document with a single page that has no text at all. -/
def d3 : Document := ⟨"doc3.pdf", [⟨[], 7920⟩]⟩

/-- Page whose only span is a short non-noise word at the dominant size. -/
def pg4 : PageData :=
  ⟨[⟨some [⟨[⟨"Hi", 120, "Arial"⟩], ⟨0, 100, 500, 112⟩⟩]⟩], 7920⟩

/-- Document with a single page whose only span is a short non-noise word at
the dominant size. -/
def d4 : Document := ⟨"doc4.pdf", [pg4]⟩

/-- Page with one two-word span at the dominant size, which the prominent
text fallback accepts. -/
def pg4w : PageData :=
  ⟨[⟨some [⟨[⟨"Hello World", 120, "Arial"⟩], ⟨0, 100, 500, 112⟩⟩]⟩], 7920⟩

/-- Document whose sizes are 120, 120 and 40 tenths. -/
def d6 : Document :=
  ⟨"doc6.pdf",
   [⟨[⟨some [⟨[⟨"a", 120, "Arial"⟩, ⟨"b", 120, "Arial"⟩, ⟨"c", 40, "Arial"⟩],
        ⟨0, 0, 100, 10⟩⟩]⟩], 7920⟩]⟩

/-- First page of the failing document: one heading-sized span and one long
body line of seven dominant-size spans. -/
def page7a : PageData :=
  ⟨[⟨some [⟨[⟨"Alpha", 200, "Arial"⟩], ⟨0, 100, 500, 120⟩⟩,
           ⟨[⟨" a b c", 120, "Arial"⟩, ⟨" a b c", 120, "Arial"⟩, ⟨" a b c", 120, "Arial"⟩,
             ⟨" a b c", 120, "Arial"⟩, ⟨" a b c", 120, "Arial"⟩, ⟨" a b c", 120, "Arial"⟩,
             ⟨" a b c", 120, "Arial"⟩], ⟨0, 130, 500, 142⟩⟩]⟩], 7920⟩

/-- Second page of the failing document: five heading-sized lines, which
exceed the default per-page maximum of 4. -/
def page7b : PageData :=
  ⟨[⟨some [⟨[⟨"Bravo one", 200, "Arial"⟩], ⟨0, 100, 500, 120⟩⟩,
           ⟨[⟨"Bravo two", 200, "Arial"⟩], ⟨0, 130, 500, 150⟩⟩,
           ⟨[⟨"Bravo three", 200, "Arial"⟩], ⟨0, 160, 500, 180⟩⟩,
           ⟨[⟨"Bravo four", 200, "Arial"⟩], ⟨0, 190, 500, 210⟩⟩,
           ⟨[⟨"Bravo five", 200, "Arial"⟩], ⟨0, 220, 500, 240⟩⟩]⟩], 7920⟩

/-- Document whose second page raises the key error of the truncating
branch when the configuration lacks the maximum headings key. -/
def d7 : Document := ⟨"doc7.pdf", [page7a, page7b]⟩

/-- Document whose title fallback collects two distinct candidate fragments
of equal length and maximal size. -/
def d8 : Document :=
  ⟨"doc8.pdf",
   [⟨[⟨some [⟨[⟨"ABC", 200, "Arial"⟩], ⟨0, 100, 500, 120⟩⟩,
             ⟨[⟨"DEF", 200, "Arial"⟩], ⟨0, 130, 500, 150⟩⟩]⟩], 7920⟩]⟩

/-! Lemmas about the sorting and scanning helpers. -/

theorem insertLe_perm {α : Type} (le : α → α → Bool) (x : α) (l : List α) :
    List.Perm (insertLe le x l) (x :: l) := by
  induction l with
  | nil => exact List.Perm.refl _
  | cons y ys ih =>
    simp only [insertLe]
    split
    · exact List.Perm.refl _
    · exact (ih.cons y).trans (List.Perm.swap x y ys)

theorem sortLe_perm {α : Type} (le : α → α → Bool) (l : List α) :
    List.Perm (sortLe le l) l := by
  induction l with
  | nil => exact List.Perm.refl _
  | cons x xs ih => exact (insertLe_perm le x (sortLe le xs)).trans (ih.cons x)

theorem mem_sortLe {α : Type} {le : α → α → Bool} {x : α} {l : List α} :
    x ∈ sortLe le l ↔ x ∈ l := (sortLe_perm le l).mem_iff

theorem sortLe_length {α : Type} (le : α → α → Bool) (l : List α) :
    (sortLe le l).length = l.length := (sortLe_perm le l).length_eq

theorem listIsPref_iff {p l : List Char} : listIsPref p l = true ↔ ∃ rest, l = p ++ rest := by
  induction p generalizing l with
  | nil => simp [listIsPref]
  | cons a as ih =>
    cases l with
    | nil =>
      simp only [listIsPref, List.nil_eq, List.cons_append]
      constructor
      · intro h; exact absurd h (by simp)
      · rintro ⟨rest, h⟩; exact absurd h (by simp)
    | cons b bs =>
      simp only [listIsPref, Bool.and_eq_true, beq_iff_eq, ih, List.cons_append, List.cons.injEq]
      constructor
      · rintro ⟨rfl, rest, rfl⟩; exact ⟨rest, rfl, rfl⟩
      · rintro ⟨rest, rfl, rfl⟩; exact ⟨rfl, rest, rfl⟩

theorem splitChar_append_sep {sep : Char} {pre : List Char} (h : ∀ c ∈ pre, c ≠ sep)
    (rest : List Char) :
    splitChar sep (pre ++ sep :: rest) = pre :: splitChar sep rest := by
  induction pre with
  | nil => simp [splitChar]
  | cons c cs ih =>
    have hc : (c == sep) = false := by
      simpa using h c (List.mem_cons_self c cs)
    simp only [List.cons_append, splitChar, hc, Bool.false_eq_true, if_false, List.append_eq]
    rw [ih (fun d hd => h d (List.mem_cons_of_mem c hd))]

theorem mem_firstOccsGo {k : Int} : ∀ {l seen : List Int},
    (k ∈ firstOccsGo seen l ↔ k ∈ l ∧ k ∉ seen) := by
  intro l
  induction l with
  | nil => intro seen; simp [firstOccsGo]
  | cons x xs ih =>
    intro seen
    simp only [firstOccsGo]
    split
    · rename_i hx
      rw [ih]
      constructor
      · rintro ⟨h1, h2⟩; exact ⟨List.mem_cons_of_mem _ h1, h2⟩
      · rintro ⟨h1, h2⟩
        rcases List.mem_cons.mp h1 with rfl | h1
        · exact absurd hx h2
        · exact ⟨h1, h2⟩
    · rename_i hx
      constructor
      · intro hmem
        rcases List.mem_cons.mp hmem with rfl | hmem
        · exact ⟨List.mem_cons_self _ _, hx⟩
        · obtain ⟨h1, h2⟩ := ih.mp hmem
          refine ⟨List.mem_cons_of_mem _ h1, fun hc => h2 (List.mem_cons_of_mem _ hc)⟩
      · rintro ⟨h1, h2⟩
        by_cases hkx : k = x
        · subst hkx; exact List.mem_cons_self _ _
        · rcases List.mem_cons.mp h1 with rfl | h1
          · exact absurd rfl hkx
          · refine List.mem_cons_of_mem _ (ih.mpr ⟨h1, ?_⟩)
            intro hc
            rcases List.mem_cons.mp hc with rfl | hc
            · exact hkx rfl
            · exact h2 hc

theorem mem_firstOccs {k : Int} {l : List Int} : k ∈ firstOccs l ↔ k ∈ l := by
  unfold firstOccs
  rw [mem_firstOccsGo]
  simp

theorem tally_count {l : List Int} {p : Int × Nat} (h : p ∈ tally l) :
    p.1 ∈ l ∧ p.2 = l.count p.1 := by
  simp only [tally, List.mem_map] at h
  obtain ⟨k, hk, rfl⟩ := h
  exact ⟨mem_firstOccs.mp hk, rfl⟩

theorem mem_tally_of_mem {l : List Int} {k : Int} (h : k ∈ l) : (k, l.count k) ∈ tally l := by
  simp only [tally, List.mem_map]
  exact ⟨k, mem_firstOccs.mpr h, rfl⟩

theorem foldBest_mem (rest : List (Int × Nat)) : ∀ p, rest.foldl foldBest p ∈ p :: rest := by
  induction rest with
  | nil => intro p; simp
  | cons q rest ih =>
    intro p
    simp only [List.foldl_cons]
    have hstep : foldBest p q = p ∨ foldBest p q = q := by
      unfold foldBest; split
      · exact Or.inr rfl
      · exact Or.inl rfl
    rcases List.mem_cons.mp (ih (foldBest p q)) with heq | hmem
    · rw [heq]
      rcases hstep with h | h
      · rw [h]; exact List.mem_cons_self _ _
      · rw [h]; exact List.mem_cons_of_mem _ (List.mem_cons_self _ _)
    · exact List.mem_cons_of_mem _ (List.mem_cons_of_mem _ hmem)

theorem foldBest_ge (rest : List (Int × Nat)) :
    ∀ p q, q ∈ p :: rest → q.2 ≤ (rest.foldl foldBest p).2 := by
  induction rest with
  | nil =>
    intro p q hq
    simp only [List.mem_singleton] at hq
    subst hq
    exact le_refl _
  | cons r rest ih =>
    intro p q hq
    simp only [List.foldl_cons]
    rcases List.mem_cons.mp hq with rfl | hq
    · have h1 : q.2 ≤ (foldBest q r).2 := by
        unfold foldBest; split <;> omega
      exact le_trans h1 (ih (foldBest q r) _ (List.mem_cons_self _ _))
    · rcases List.mem_cons.mp hq with rfl | hq
      · have h1 : q.2 ≤ (foldBest p q).2 := by
          unfold foldBest; split <;> omega
        exact le_trans h1 (ih (foldBest p q) _ (List.mem_cons_self _ _))
      · exact ih (foldBest p r) q (List.mem_cons_of_mem _ hq)

theorem pyMaxByCount_spec {l : List (Int × Nat)} (h : l ≠ []) :
    ∃ p ∈ l, pyMaxByCount l = p.1 ∧ ∀ q ∈ l, q.2 ≤ p.2 := by
  match l with
  | [] => exact absurd rfl h
  | p :: rest =>
    exact ⟨rest.foldl foldBest p, foldBest_mem rest p, rfl,
      fun q hq => foldBest_ge rest p q hq⟩

theorem idxOfSize_eq_some {fs : Int} : ∀ {l : List Int}, fs ∈ l → ∃ i, idxOfSize fs l = some i := by
  intro l
  induction l with
  | nil => intro h; simp at h
  | cons x xs ih =>
    intro h
    by_cases hx : x = fs
    · exact ⟨0, by simp [idxOfSize, hx]⟩
    · rcases List.mem_cons.mp h with rfl | h2
      · exact absurd rfl hx
      · obtain ⟨i, hi⟩ := ih h2
        exact ⟨i + 1, by simp [idxOfSize, hx, hi]⟩

/-! Claims about the heading classifier. -/

/-- Claim C5: a span whose rounded font size exceeds the dominant size by
more than the configured margin makes the classifier accept the line
unconditionally: rule 1 fires first, whatever the text, the bounding boxes,
the previous line or the first-page flag are. -/
theorem c5_rule1_unconditional (s : Settings) (st : StyleProfile) (text : String) (span : Span)
    (bb : BBox) (prev : Option BBox) (flag : Bool)
    (h : st.dominant_font_size + s.thresholds.font_size_difference_from_dominant < span.size) :
    is_likely_heading s st text span bb prev flag = true := by
  unfold is_likely_heading
  rw [if_pos h]

/-- Witness for claim C5 at a concrete input. -/
theorem c5_witness :
    st1.dominant_font_size + s0.thresholds.font_size_difference_from_dominant <
      (Span.mk "body text." 200 "Arial").size ∧
    is_likely_heading s0 st1 "body text." ⟨"body text.", 200, "Arial"⟩ ⟨0, 0, 10, 10⟩ none false
      = true :=
  ⟨by decide,
   c5_rule1_unconditional s0 st1 "body text." ⟨"body text.", 200, "Arial"⟩ ⟨0, 0, 10, 10⟩ none
     false (by decide)⟩

/-- Claim C9: the classifier result does not depend on the first-page flag:
the parameter is received and never read, so the two calls agree on every
input. -/
theorem c9_flag_independent (s : Settings) (st : StyleProfile) (text : String) (span : Span)
    (bb : BBox) (prev : Option BBox) :
    is_likely_heading s st text span bb prev true = is_likely_heading s st text span bb prev false :=
  rfl

/-! Claims about the level assigner. -/

/-- Claim C1, counterexample: the text 1.1 Overview does not match the
numbering pattern of the level assigner, because after the first digit group
and the dot the pattern requires whitespace while a digit follows; the text
falls through to the prominence-ladder fallback and, on a profile whose
ladder puts the queried size first, is assigned H1 and not the H2 the claim
requires for a two-group numbering. -/
theorem c1_counterexample :
    assign_heading_level st1 120 "1.1 Overview" = "H1" ∧
    assign_heading_level st1 120 "1.1 Overview" ≠ "H2" :=
  ⟨by decide, by decide⟩

/-- Claim C1 (amended): the numbering branch of the level assigner fires only
for texts that begin with digits, then one dot, then whitespace; when the
character after the dot is a plain space the first space-delimited token is
the digit run followed by the dot, it contains exactly one nonempty numeric
group, and the assigned level is H1 for every style profile and font size.
Texts with deeper dotted numbering, such as 1.1 Overview, bypass the
numbering branch entirely. -/
theorem c1_amended_numbered_h1 (st : StyleProfile) (fs : Int) (t : String)
    (h : numDotSpaceForm t = true) : assign_heading_level st fs t = "H1" := by
  unfold numDotSpaceForm at h
  rw [Bool.and_eq_true] at h
  obtain ⟨h1, h2⟩ := h
  obtain ⟨rest, hrest⟩ := listIsPref_iff.mp h2
  have hm : matchesNumDotWs t = true := by
    unfold matchesNumDotWs
    rw [Bool.and_eq_true]
    refine ⟨h1, ?_⟩
    rw [hrest]
    rfl
  obtain ⟨ds, hds⟩ : ∃ ds, t.data.takeWhile Char.isDigit = ds := ⟨_, rfl⟩
  rw [hds] at h1
  have hdsne : ds ≠ [] := by
    intro hc
    rw [hc] at h1
    simp at h1
  have hdsdig : ∀ c ∈ ds, c.isDigit = true :=
    fun c hc => List.mem_takeWhile_imp (hds ▸ hc)
  have hdata : t.data = ds ++ '.' :: ' ' :: rest := by
    conv_lhs => rw [← List.takeWhile_append_dropWhile Char.isDigit t.data]
    rw [hrest, hds]
    rfl
  have hnospace : ∀ c ∈ ds ++ ['.'], c ≠ ' ' := by
    intro c hc
    rcases List.mem_append.mp hc with hc | hc
    · intro hceq
      subst hceq
      exact absurd (hdsdig _ hc) (by decide)
    · simp only [List.mem_singleton] at hc
      subst hc
      decide
  have hnodot : ∀ c ∈ ds, c ≠ '.' := by
    intro c hc hceq
    subst hceq
    exact absurd (hdsdig _ hc) (by decide)
  have htok : pySplit t ' ' =
      String.mk (ds ++ ['.']) :: (splitChar ' ' rest).map String.mk := by
    unfold pySplit
    have heq : t.data = (ds ++ ['.']) ++ ' ' :: rest := by
      rw [hdata]; simp
    rw [heq, splitChar_append_sep hnospace]
    rfl
  have htok2 : pySplit (String.mk (ds ++ ['.'])) '.' = [String.mk ds, ""] := by
    unfold pySplit
    have heq : (String.mk (ds ++ ['.'])).data = ds ++ '.' :: [] := rfl
    rw [heq, splitChar_append_sep hnodot]
    rfl
  have hmkne : String.mk ds ≠ "" := by
    intro hc
    apply hdsne
    have := congrArg String.data hc
    simpa using this
  unfold assign_heading_level
  rw [if_pos hm]
  simp only [htok, List.headD_cons, htok2]
  simp [hmkne]

/-- Witness for the amended claim C1 at a concrete input. -/
theorem c1_witness :
    numDotSpaceForm "3. Intro" = true ∧ assign_heading_level st1 120 "3. Intro" = "H1" :=
  ⟨by decide, c1_amended_numbered_h1 st1 120 "3. Intro" (by decide)⟩

/-! Claims about style profiling. -/

/-- Claim C6: after style profiling the dominant font size is an occurring
size, above 6 points, of maximal total occurrence count among the sizes above
6 points, and when every observed size is at most 6 points it is an occurring
size of maximal occurrence count overall.  Sizes are in tenths of a point, so
6 points is 60.  Ties between equally frequent sizes go to the size observed
first, since the Python max over the counting dict keeps the first
maximum. -/
theorem c6_dominant_font_size (d : Document) (hne : observedSizes d ≠ []) :
    ((∃ fs ∈ observedSizes d, (60:Int) < fs) →
      (analyze_document_styles d).dominant_font_size ∈ observedSizes d ∧
      (60:Int) < (analyze_document_styles d).dominant_font_size ∧
      ∀ fs ∈ observedSizes d, (60:Int) < fs →
        (observedSizes d).count fs ≤
          (observedSizes d).count (analyze_document_styles d).dominant_font_size) ∧
    ((∀ fs ∈ observedSizes d, fs ≤ 60) →
      (analyze_document_styles d).dominant_font_size ∈ observedSizes d ∧
      ∀ fs ∈ observedSizes d,
        (observedSizes d).count fs ≤
          (observedSizes d).count (analyze_document_styles d).dominant_font_size) := by
  have hdom : (analyze_document_styles d).dominant_font_size = dominantFrom (observedSizes d) := by
    unfold analyze_document_styles
    rw [if_neg hne]
  rw [hdom]
  set l := observedSizes d with hl
  constructor
  · rintro ⟨fs0, hfs0, hfs0gt⟩
    have hmem0 : (fs0, l.count fs0) ∈ (tally l).filter (fun p => 60 < p.1) := by
      rw [List.mem_filter]
      exact ⟨mem_tally_of_mem hfs0, by simpa using hfs0gt⟩
    have hfne : (tally l).filter (fun p => 60 < p.1) ≠ [] := by
      intro hc; rw [hc] at hmem0; exact absurd hmem0 (List.not_mem_nil _)
    simp only [dominantFrom]
    rw [if_neg hfne]
    obtain ⟨p, hp, hpeq, hpmax⟩ := pyMaxByCount_spec hfne
    rw [hpeq]
    have hptally := (List.mem_filter.mp hp).1
    have hpgt : (60:Int) < p.1 := by
      have := (List.mem_filter.mp hp).2
      simpa using this
    obtain ⟨hp1, hp2⟩ := tally_count hptally
    refine ⟨hp1, hpgt, ?_⟩
    intro fs hfs hfsgt
    have hmemf : (fs, l.count fs) ∈ (tally l).filter (fun p => 60 < p.1) := by
      rw [List.mem_filter]
      exact ⟨mem_tally_of_mem hfs, by simpa using hfsgt⟩
    have hle := hpmax _ hmemf
    rw [hp2] at hle
    exact hle
  · intro hall
    have hfnil : (tally l).filter (fun p => 60 < p.1) = [] := by
      rw [List.eq_nil_iff_forall_not_mem]
      intro p hp
      rw [List.mem_filter] at hp
      obtain ⟨hp1, _⟩ := tally_count hp.1
      have hle := hall _ hp1
      have hgt : (60:Int) < p.1 := by simpa using hp.2
      omega
    simp only [dominantFrom]
    rw [if_pos hfnil]
    have htne : tally l ≠ [] := by
      intro hc
      cases hll : l with
      | nil => exact hne (hl ▸ hll)
      | cons x xs =>
        have hx : x ∈ l := by rw [hll]; exact List.mem_cons_self _ _
        have := mem_tally_of_mem hx
        rw [hc] at this
        exact absurd this (List.not_mem_nil _)
    obtain ⟨p, hp, hpeq, hpmax⟩ := pyMaxByCount_spec htne
    rw [hpeq]
    obtain ⟨hp1, hp2⟩ := tally_count hp
    refine ⟨hp1, ?_⟩
    intro fs hfs
    have hle := hpmax _ (mem_tally_of_mem hfs)
    rw [hp2] at hle
    exact hle

/-- Witness for claim C6 at a concrete document. -/
theorem c6_witness :
    observedSizes d6 ≠ [] ∧
    (((∃ fs ∈ observedSizes d6, (60:Int) < fs) →
      (analyze_document_styles d6).dominant_font_size ∈ observedSizes d6 ∧
      (60:Int) < (analyze_document_styles d6).dominant_font_size ∧
      ∀ fs ∈ observedSizes d6, (60:Int) < fs →
        (observedSizes d6).count fs ≤
          (observedSizes d6).count (analyze_document_styles d6).dominant_font_size) ∧
    ((∀ fs ∈ observedSizes d6, fs ≤ 60) →
      (analyze_document_styles d6).dominant_font_size ∈ observedSizes d6 ∧
      ∀ fs ∈ observedSizes d6,
        (observedSizes d6).count fs ≤
          (observedSizes d6).count (analyze_document_styles d6).dominant_font_size)) :=
  ⟨by decide, c6_dominant_font_size d6 (by decide)⟩

/-- Claim C10: when the queried size occurs among the observed sizes of the
document, it is a member of the prominence ladder, so the ladder fallback of
the level assigner finds it and returns one of H1 to H4; the not-found branch
returning the unknown sentinel is unreachable under that precondition. -/
theorem c10_fallback_no_unknown (d : Document) (fs : Int) (h : fs ∈ observedSizes d) :
    fallback_level (analyze_document_styles d) fs ≠ "H_UNKNOWN" ∧
    fallback_level (analyze_document_styles d) fs ∈ (["H1", "H2", "H3", "H4"] : List String) := by
  have hne : observedSizes d ≠ [] := by
    intro hc; rw [hc] at h; exact absurd h (List.not_mem_nil _)
  have hladder : (analyze_document_styles d).font_sizes_by_prominence = prominenceLadder d := by
    unfold analyze_document_styles
    rw [if_neg hne]
  have hmem : fs ∈ (analyze_document_styles d).font_sizes_by_prominence := by
    rw [hladder]
    unfold prominenceLadder
    exact mem_sortLe.mpr (mem_firstOccs.mpr h)
  obtain ⟨i, hi⟩ := idxOfSize_eq_some hmem
  have hfb : fallback_level (analyze_document_styles d) fs = "H" ++ toString (min (i + 1) 4) := by
    unfold fallback_level
    rw [hi]
  rw [hfb]
  have hcases : min (i + 1) 4 = 1 ∨ min (i + 1) 4 = 2 ∨ min (i + 1) 4 = 3 ∨ min (i + 1) 4 = 4 := by
    omega
  rcases hcases with hc | hc | hc | hc <;> rw [hc] <;> exact ⟨by decide, by decide⟩

/-- Witness for claim C10 at a concrete document and size. -/
theorem c10_witness :
    (120 : Int) ∈ observedSizes d6 ∧
    (fallback_level (analyze_document_styles d6) 120 ≠ "H_UNKNOWN" ∧
     fallback_level (analyze_document_styles d6) 120 ∈ (["H1", "H2", "H3", "H4"] : List String)) :=
  ⟨by decide, c10_fallback_no_unknown d6 120 (by decide)⟩

/-! Lemmas about the page loop, feeding the dedup and cap claims. -/

theorem stepLine_spec (s : Settings) (st : StyleProfile) (title path : String) (page_idx : Nat)
    (out : Int) (ls : LoopState) (ln : Line) :
    ((stepLine s st title path page_idx out ls ln).processed = ls.processed ∧
     (stepLine s st title path page_idx out ls ln).cands = ls.cands) ∨
    (∃ c : Cand, c.page = out ∧ candKey c ∉ ls.processed ∧
      (stepLine s st title path page_idx out ls ln).processed = candKey c :: ls.processed ∧
      (stepLine s st title path page_idx out ls ln).cands = ls.cands ++ [c]) := by
  unfold stepLine
  repeat' split
  all_goals first
    | exact Or.inl ⟨rfl, rfl⟩
    | (rename_i h
       exact Or.inr ⟨⟨assign_heading_level st _ (lineText ln), lineText ln, out, ln.bbox.y0⟩,
         rfl, h, rfl, rfl⟩)

theorem foldl_stepLine_inv (s : Settings) (st : StyleProfile) (title path : String)
    (page_idx : Nat) (out : Int) (lines : List Line) :
    ∀ ls : LoopState,
      (∀ c ∈ ls.cands, candKey c ∈ ls.processed) →
      (ls.cands.map candKey).Nodup →
      (∀ c ∈ ls.cands, c.page = out) →
      ((∀ c ∈ (lines.foldl (stepLine s st title path page_idx out) ls).cands,
          candKey c ∈ (lines.foldl (stepLine s st title path page_idx out) ls).processed) ∧
       ((lines.foldl (stepLine s st title path page_idx out) ls).cands.map candKey).Nodup ∧
       (∀ c ∈ (lines.foldl (stepLine s st title path page_idx out) ls).cands, c.page = out)) := by
  induction lines with
  | nil => intro ls h1 h2 h3; exact ⟨h1, h2, h3⟩
  | cons ln lines ih =>
    intro ls h1 h2 h3
    simp only [List.foldl_cons]
    rcases stepLine_spec s st title path page_idx out ls ln with ⟨hp, hc⟩ | ⟨c, hpage, hnot, hp, hc⟩
    · exact ih _ (by rw [hp, hc]; exact h1) (by rw [hc]; exact h2) (by rw [hc]; exact h3)
    · refine ih _ ?_ ?_ ?_
      · rw [hp, hc]
        intro c' hc'
        rcases List.mem_append.mp hc' with hmem | hmem
        · exact List.mem_cons_of_mem _ (h1 c' hmem)
        · simp only [List.mem_singleton] at hmem
          subst hmem
          exact List.mem_cons_self _ _
      · rw [hc, List.map_append]
        rw [List.nodup_append]
        refine ⟨h2, List.nodup_singleton _, ?_⟩
        intro k hk
        obtain ⟨c', hc', hkey⟩ := List.mem_map.mp hk
        simp only [List.map_cons, List.map_nil, List.mem_singleton]
        intro hck
        apply hnot
        rw [← hck, ← hkey]
        exact h1 c' hc'
      · rw [hc]
        intro c' hc'
        rcases List.mem_append.mp hc' with hmem | hmem
        · exact h3 c' hmem
        · simp only [List.mem_singleton] at hmem
          subst hmem
          exact hpage

theorem curatePage_ok_spec (s : Settings) (st : StyleProfile) (title : String) (pg : PageData)
    (out : Int) (cands : List Cand) (es : List Entry)
    (hok : curatePage s st title pg out cands = .ok es)
    (hkeys : (cands.map candKey).Nodup)
    (hpages : ∀ c ∈ cands, c.page = out) :
    (es.map entryKey).Nodup ∧ ∀ e ∈ es, e.page = out := by
  have hperm : List.Perm (sortLe candLe cands) cands := sortLe_perm _ _
  have hkeys2 : ((sortLe candLe cands).map candKey).Nodup :=
    ((hperm.map candKey).nodup_iff).mpr hkeys
  have hpages2 : ∀ c ∈ sortLe candLe cands, c.page = out :=
    fun c hc => hpages c (hperm.mem_iff.mp hc)
  have hcomp : ∀ l : List Cand, (l.map toEntry).map entryKey = l.map candKey := by
    intro l
    rw [List.map_map]
    rfl
  simp only [curatePage] at hok
  split at hok
  · split at hok
    · rename_i m hm
      have hes : es = ((sortLe candLe cands).take m).map toEntry := by
        injection hok with h
        exact h.symm
      subst hes
      constructor
      · rw [hcomp, List.map_take]
        exact List.Nodup.sublist (List.take_sublist _ _) hkeys2
      · intro e he
        obtain ⟨c, hc, rfl⟩ := List.mem_map.mp he
        exact hpages2 c ((List.take_sublist _ _).mem hc)
    · exact absurd hok (by simp)
  · split at hok
    · have hes : es = (sortLe candLe cands).map toEntry := by
        injection hok with h
        exact h.symm
      subst hes
      constructor
      · rw [hcomp]
        exact hkeys2
      · intro e he
        obtain ⟨c, hc, rfl⟩ := List.mem_map.mp he
        exact hpages2 c hc
    · split at hok
      · rename_i t ht
        have hes : es = [⟨"H1", t, out⟩] := by
          injection hok with h
          exact h.symm
        subst hes
        exact ⟨List.nodup_singleton _, by intro e he; simp only [List.mem_singleton] at he; subst he; rfl⟩
      · have hes : es = [] := by
          injection hok with h
          exact h.symm
        subst hes
        exact ⟨List.nodup_nil, by intro e he; exact absurd he (List.not_mem_nil _)⟩

theorem process_pages_spec (s : Settings) (st : StyleProfile) (title path : String) (offset : Int) :
    ∀ (pages : List PageData) (page_idx : Nat) (procs : List Key),
      ((process_pages s st title path offset page_idx procs pages).1.map entryKey).Nodup ∧
      (∀ e ∈ (process_pages s st title path offset page_idx procs pages).1,
        (page_idx : Int) + 1 + offset ≤ e.page) := by
  intro pages
  induction pages with
  | nil =>
    intro pi procs
    simp [process_pages]
  | cons pg rest ih =>
    intro pi procs
    simp only [process_pages]
    split
    · obtain ⟨ha, hb⟩ := ih (pi + 1) procs
      refine ⟨ha, ?_⟩
      intro e he
      have := hb e he
      push_cast at this ⊢
      omega
    · rename_i hout
      split
      · rename_i e heq
        exact ⟨List.nodup_nil, by intro e' he'; exact absurd he' (List.not_mem_nil _)⟩
      · rename_i es heq
        have hinv := foldl_stepLine_inv s st title path pi ((pi : Int) + 1 + offset)
          (pageLines pg) ⟨procs, none, []⟩
          (by intro c hc; exact absurd hc (List.not_mem_nil _))
          List.nodup_nil
          (by intro c hc; exact absurd hc (List.not_mem_nil _))
        obtain ⟨_, hkeys, hpages⟩ := hinv
        obtain ⟨hesnodup, hespages⟩ := curatePage_ok_spec s st title pg _ _ es heq hkeys hpages
        obtain ⟨ha, hb⟩ := ih (pi + 1)
          ((pageLines pg).foldl
            (stepLine s st title path pi ((pi : Int) + 1 + offset)) ⟨procs, none, []⟩).processed
        constructor
        · simp only [List.map_append]
          rw [List.nodup_append]
          refine ⟨hesnodup, ha, ?_⟩
          intro k hk
          obtain ⟨e, he, rfl⟩ := List.mem_map.mp hk
          intro hk2
          obtain ⟨e', he', hkeq⟩ := List.mem_map.mp hk2
          have hpe : e.page = (pi : Int) + 1 + offset := hespages e he
          have hpe' : ((pi : Int) + 1) + 1 + offset ≤ e'.page := by
            have h4 := hb e' he'
            push_cast at h4 ⊢
            omega
          have hpeq2 : e'.page = e.page := by
            have h3 := congrArg (fun p : Key => p.2.2) hkeq
            simpa [entryKey] using h3
          omega
        · intro e he
          rcases List.mem_append.mp he with hmem | hmem
          · rw [hespages e hmem]
          · have h5 := hb e hmem
            push_cast at h5 ⊢
            omega

/-! Claims about curation, deduplication and the fallback. -/

/-- Claim C2: within one extraction call no two entries of the returned
outline share the text, level and page triple.  Per page the document-wide
processed set blocks duplicate keys before emission, sorting and truncation
preserve distinctness, the fallback contributes at most a single entry and
only on pages without candidates, and entries of distinct pages carry
distinct output page numbers. -/
theorem c2_dedup_invariant (s : Settings) (setIter : List String → List String) (d : Document) :
    ((extract_outline s setIter d).outline.map entryKey).Nodup := by
  unfold extract_outline
  exact (process_pages_spec s (analyze_document_styles d) (resolveTitle s setIter d) d.path
    (docOffset d) d.pages 0 []).1

/-- Claim C3, counterexample: a page with no spans yields zero surviving
candidates and the prominent-text fallback finds nothing, so the page emits
zero entries rather than the exactly one entry the claim states for the
zero-candidate case. -/
theorem c3_counterexample :
    d3.pages = [⟨[], 7920⟩] ∧ (extract_outline s0 dedupFirstStr d3).outline = [] :=
  ⟨rfl, by decide⟩

/-- Claim C3 (amended): with a configured per-page maximum m, a page with
surviving candidates emits at most m entries, and a page with zero surviving
candidates emits at most one entry: the fallback emits exactly one entry when
its prominent-text search succeeds and zero entries otherwise. -/
theorem c3_amended_page_cap (s : Settings) (st : StyleProfile) (title : String) (pg : PageData)
    (out : Int) (cands : List Cand) (m : Nat) (es : List Entry)
    (hm : s.max_headings_per_page = some m)
    (hok : curatePage s st title pg out cands = .ok es) :
    (cands ≠ [] → es.length ≤ m) ∧ (cands = [] → es.length ≤ 1) := by
  simp only [curatePage, hm, Option.getD_some] at hok
  split at hok
  · have hes : es = ((sortLe candLe cands).take m).map toEntry := by
      injection hok with h
      exact h.symm
    subst hes
    constructor
    · intro _
      rw [List.length_map, List.length_take]
      omega
    · intro hnil
      subst hnil
      simp [sortLe]
  · rename_i hlen
    split at hok
    · rename_i hne2
      have hes : es = (sortLe candLe cands).map toEntry := by
        injection hok with h
        exact h.symm
      subst hes
      rw [sortLe_length] at hlen
      constructor
      · intro _
        rw [List.length_map, sortLe_length]
        omega
      · intro hnil
        subst hnil
        simp [sortLe] at hne2
    · rename_i hsortnil
      have hcnil : cands = [] := by
        have hlc := sortLe_length candLe cands
        rcases hs : sortLe candLe cands with _ | ⟨c, cs⟩
        · rw [hs] at hlc
          exact List.eq_nil_of_length_eq_zero hlc.symm
        · exact absurd (by rw [hs]; simp : sortLe candLe cands ≠ []) hsortnil
      constructor
      · intro hne3
        exact absurd hcnil hne3
      · intro _
        split at hok
        · rename_i t ht
          have hes : es = [⟨"H1", t, out⟩] := by
            injection hok with h
            exact h.symm
          subst hes
          simp
        · have hes : es = [] := by
            injection hok with h
            exact h.symm
          subst hes
          simp

/-- Witness for the amended claim C3 at a concrete spanless page. -/
theorem c3_witness :
    (([] : List Cand) ≠ [] → ([] : List Entry).length ≤ 4) ∧
    (([] : List Cand) = [] → ([] : List Entry).length ≤ 1) :=
  c3_amended_page_cap s0 st1 "" ⟨[], 7920⟩ 1 [] 4 [] rfl rfl

/-- Claim C4, counterexample: the only page of the document contains a
non-noise span whose stripped text differs from the resolved title, yet the
returned outline has no entry for the page: the fallback also demands a
prominence and length condition, and the two-character single-word text Hi
fails its word-count and length test. -/
theorem c4_counterexample :
    d4.pages = [pg4] ∧
    (∃ ln ∈ pageLines pg4, ∃ sp ∈ ln.spans,
      pyStrip sp.text ≠ "" ∧ s0.noise (pyStrip sp.text) = false ∧
      pyStrip sp.text ≠ (extract_outline s0 dedupFirstStr d4).title) ∧
    (extract_outline s0 dedupFirstStr d4).outline = [] :=
  ⟨rfl, by decide, by decide⟩

/-- Claim C4 (amended): a page with zero surviving candidates receives
exactly one fallback entry, at level H1 with the page number of the page,
whenever some span of the page passes the fallback eligibility test: nonempty
stripped text that is neither a noise match nor the document title, whose
size is within half a point of the dominant size or whose font is bold, and
that has more than one word, or more than three characters while not being
purely numeric. -/
theorem c4_amended_fallback (s : Settings) (st : StyleProfile) (title : String) (pg : PageData)
    (out : Int)
    (h : ∃ ln ∈ pageLines pg, ∃ sp ∈ ln.spans, fallbackEligible s st title sp = true) :
    ∃ t, curatePage s st title pg out [] = .ok [⟨"H1", t, out⟩] := by
  obtain ⟨ln, hln, sp, hsp, helig⟩ := h
  have hmem : (pyStrip sp.text, ln.bbox.y0) ∈ prominentCands s st pg title := by
    unfold prominentCands
    rw [List.mem_flatMap]
    refine ⟨ln, hln, ?_⟩
    rw [List.mem_filterMap]
    exact ⟨sp, hsp, by rw [if_pos helig]⟩
  have hne : prominentCands s st pg title ≠ [] := by
    intro hcon
    rw [hcon] at hmem
    exact absurd hmem (List.not_mem_nil _)
  have hffp : ∃ t, find_first_prominent_text s st pg title = some t := by
    unfold find_first_prominent_text
    split
    · rename_i hsort
      exfalso
      apply hne
      have hlc := congrArg List.length hsort
      rw [sortLe_length] at hlc
      exact List.eq_nil_of_length_eq_zero hlc
    · rename_i c cs hsort
      exact ⟨c.1, rfl⟩
  obtain ⟨t, ht⟩ := hffp
  refine ⟨t, ?_⟩
  have hc1 : ¬ (s.max_headings_per_page.getD 4 < (sortLe candLe ([] : List Cand)).length) := by
    simp [sortLe]
  have hc2 : ¬ (sortLe candLe ([] : List Cand) ≠ []) := by
    simp [sortLe]
  simp only [curatePage]
  rw [if_neg hc1, if_neg hc2, ht]

/-- Witness for the amended claim C4 at a concrete page. -/
theorem c4_witness :
    (∃ ln ∈ pageLines pg4w, ∃ sp ∈ ln.spans, fallbackEligible s0 st1 "" sp = true) ∧
    (∃ t, curatePage s0 st1 "" pg4w 1 [] = .ok [⟨"H1", t, 1⟩]) :=
  ⟨by decide, c4_amended_fallback s0 st1 "" pg4w 1 (by decide)⟩

/-! Error handling: splitting the page loop around a failure point. -/

theorem process_pages_append_ok (s : Settings) (st : StyleProfile) (title path : String)
    (offset : Int) (l2 : List PageData) :
    ∀ (l1 : List PageData) (idx : Nat) (procs : List Key),
      (process_pages s st title path offset idx procs l1).2.2 = none →
      (process_pages s st title path offset idx procs (l1 ++ l2)).1 =
        (process_pages s st title path offset idx procs l1).1 ++
        (process_pages s st title path offset (idx + l1.length)
          (process_pages s st title path offset idx procs l1).2.1 l2).1 ∧
      (process_pages s st title path offset idx procs (l1 ++ l2)).2.2 =
        (process_pages s st title path offset (idx + l1.length)
          (process_pages s st title path offset idx procs l1).2.1 l2).2.2 := by
  intro l1
  induction l1 with
  | nil =>
    intro idx procs _
    simp [process_pages]
  | cons pg l1 ih =>
    intro idx procs hnone
    by_cases hskip : ((idx : Int) + 1 + offset) < 1
    · have e1 : process_pages s st title path offset idx procs ((pg :: l1) ++ l2) =
          process_pages s st title path offset (idx + 1) procs (l1 ++ l2) := by
        simp only [List.cons_append, process_pages, if_pos hskip, List.append_eq]
      have e2 : process_pages s st title path offset idx procs (pg :: l1) =
          process_pages s st title path offset (idx + 1) procs l1 := by
        simp only [process_pages, if_pos hskip]
      rw [e2] at hnone
      rw [e1, e2]
      have harith : idx + (pg :: l1).length = (idx + 1) + l1.length := by
        simp only [List.length_cons]
        omega
      rw [harith]
      exact ih (idx + 1) procs hnone
    · cases hcur : curatePage s st title pg ((idx : Int) + 1 + offset)
          ((pageLines pg).foldl (stepLine s st title path idx ((idx : Int) + 1 + offset))
            ⟨procs, none, []⟩).cands with
      | error e =>
        have e2 : process_pages s st title path offset idx procs (pg :: l1) =
            ([], ((pageLines pg).foldl (stepLine s st title path idx ((idx : Int) + 1 + offset))
              ⟨procs, none, []⟩).processed, some e) := by
          simp only [process_pages, if_neg hskip, hcur]
        rw [e2] at hnone
        simp at hnone
      | ok es =>
        have e1 : process_pages s st title path offset idx procs ((pg :: l1) ++ l2) =
            (es ++ (process_pages s st title path offset (idx + 1)
                ((pageLines pg).foldl (stepLine s st title path idx ((idx : Int) + 1 + offset))
                  ⟨procs, none, []⟩).processed (l1 ++ l2)).1,
             (process_pages s st title path offset (idx + 1)
                ((pageLines pg).foldl (stepLine s st title path idx ((idx : Int) + 1 + offset))
                  ⟨procs, none, []⟩).processed (l1 ++ l2)).2.1,
             (process_pages s st title path offset (idx + 1)
                ((pageLines pg).foldl (stepLine s st title path idx ((idx : Int) + 1 + offset))
                  ⟨procs, none, []⟩).processed (l1 ++ l2)).2.2) := by
          simp only [List.cons_append, process_pages, if_neg hskip, hcur, List.append_eq]
        have e2 : process_pages s st title path offset idx procs (pg :: l1) =
            (es ++ (process_pages s st title path offset (idx + 1)
                ((pageLines pg).foldl (stepLine s st title path idx ((idx : Int) + 1 + offset))
                  ⟨procs, none, []⟩).processed l1).1,
             (process_pages s st title path offset (idx + 1)
                ((pageLines pg).foldl (stepLine s st title path idx ((idx : Int) + 1 + offset))
                  ⟨procs, none, []⟩).processed l1).2.1,
             (process_pages s st title path offset (idx + 1)
                ((pageLines pg).foldl (stepLine s st title path idx ((idx : Int) + 1 + offset))
                  ⟨procs, none, []⟩).processed l1).2.2) := by
          simp only [process_pages, if_neg hskip, hcur]
        rw [e2] at hnone
        simp only [] at hnone
        obtain ⟨ha, hb⟩ := ih (idx + 1)
          ((pageLines pg).foldl (stepLine s st title path idx ((idx : Int) + 1 + offset))
            ⟨procs, none, []⟩).processed hnone
        rw [e1, e2]
        have harith : idx + (pg :: l1).length = (idx + 1) + l1.length := by
          simp only [List.length_cons]
          omega
        rw [harith]
        constructor
        · simp only [ha, List.append_assoc]
        · exact hb

/-- Claim C7, counterexample: a failure raised while processing the second
page is caught, the error field reports it, the call returns normally, and
the entry emitted for the first page is retained in the returned outline
rather than discarded.  The failure is the key error of the truncating
branch, reachable in the source because the per-page maximum is read once
with a guarded lookup defaulting to 4 and once with a direct lookup. -/
theorem c7_counterexample :
    (extract_outline s7 dedupFirstStr d7).error = some "\x27max_headings_per_page\x27" ∧
    (extract_outline s7 dedupFirstStr d7).outline = [⟨"H1", "Alpha", 1⟩] :=
  ⟨by decide, by decide⟩

/-- Claim C7 (amended): when extraction of a document fails at some page, the
call still returns normally, the error field carries the failure description,
and the outline entries produced for the pages processed before the failure
are retained in the returned result, not discarded. -/
theorem c7_amended_retention (s : Settings) (setIter : List String → List String) (d : Document)
    (l1 l2 : List PageData) (e : String)
    (hsplit : d.pages = l1 ++ l2)
    (h1 : (process_pages s (analyze_document_styles d) (resolveTitle s setIter d) d.path
            (docOffset d) 0 [] l1).2.2 = none)
    (h2 : (process_pages s (analyze_document_styles d) (resolveTitle s setIter d) d.path
            (docOffset d) l1.length
            (process_pages s (analyze_document_styles d) (resolveTitle s setIter d) d.path
              (docOffset d) 0 [] l1).2.1 l2).2.2 = some e) :
    (extract_outline s setIter d).error = some e ∧
    (extract_outline s setIter d).outline =
      (process_pages s (analyze_document_styles d) (resolveTitle s setIter d) d.path
        (docOffset d) 0 [] l1).1 ++
      (process_pages s (analyze_document_styles d) (resolveTitle s setIter d) d.path
        (docOffset d) l1.length
        (process_pages s (analyze_document_styles d) (resolveTitle s setIter d) d.path
          (docOffset d) 0 [] l1).2.1 l2).1 := by
  obtain ⟨ha, hb⟩ := process_pages_append_ok s (analyze_document_styles d)
    (resolveTitle s setIter d) d.path (docOffset d) l2 l1 0 [] h1
  rw [Nat.zero_add] at ha hb
  constructor
  · show (process_pages s (analyze_document_styles d) (resolveTitle s setIter d) d.path
      (docOffset d) 0 [] d.pages).2.2 = some e
    rw [hsplit, hb]
    exact h2
  · show (process_pages s (analyze_document_styles d) (resolveTitle s setIter d) d.path
      (docOffset d) 0 [] d.pages).1 = _
    rw [hsplit, ha]

/-- Witness for the amended claim C7 at the concrete failing document. -/
theorem c7_witness :
    d7.pages = [page7a] ++ [page7b] ∧
    (process_pages s7 (analyze_document_styles d7) (resolveTitle s7 dedupFirstStr d7) d7.path
      (docOffset d7) 0 [] [page7a]).2.2 = none ∧
    ((extract_outline s7 dedupFirstStr d7).error = some "\x27max_headings_per_page\x27" ∧
     (extract_outline s7 dedupFirstStr d7).outline =
      (process_pages s7 (analyze_document_styles d7) (resolveTitle s7 dedupFirstStr d7) d7.path
        (docOffset d7) 0 [] [page7a]).1 ++
      (process_pages s7 (analyze_document_styles d7) (resolveTitle s7 dedupFirstStr d7) d7.path
        (docOffset d7) ([page7a] : List PageData).length
        (process_pages s7 (analyze_document_styles d7) (resolveTitle s7 dedupFirstStr d7) d7.path
          (docOffset d7) 0 [] [page7a]).2.1 [page7b]).1) :=
  ⟨rfl, by decide,
   c7_amended_retention s7 dedupFirstStr d7 [page7a] [page7b] "\x27max_headings_per_page\x27"
     rfl (by decide) (by decide)⟩

/-! Determinism and the title enumeration order. -/

/-- Claim C8, counterexample: the title fallback deduplicates the candidate
fragments through a Python string set and orders ties of the length sort by
the set iteration order, which depends on the per-process hash seed.  The two
enumerations below are both admissible orders of the same two-element set,
and the two extraction runs return different titles for the same document and
configuration, so the results are not byte-identical across runs. -/
theorem c8_counterexample :
    dedupFirstStr ["ABC", "DEF"] = ["ABC", "DEF"] ∧
    revSetIter ["ABC", "DEF"] = ["DEF", "ABC"] ∧
    (extract_outline s0 dedupFirstStr d8).title = "ABC DEF" ∧
    (extract_outline s0 revSetIter d8).title = "DEF ABC" :=
  ⟨by decide, by decide, by decide, by decide⟩

/-- Claim C8 (amended): extraction is a deterministic function of the
document, the configuration and the string-set enumeration order used by the
title fallback: two runs whose enumeration orders agree return identical
Outline records; runs in processes with different hash seeds may enumerate
the set differently and then the resolved title, and with it the record, can
differ. -/
theorem c8_amended_determinism (s : Settings) (e1 e2 : List String → List String) (d : Document)
    (h : ∀ l, e1 l = e2 l) : extract_outline s e1 d = extract_outline s e2 d := by
  have he : e1 = e2 := funext h
  rw [he]

/-- Witness for the amended claim C8. -/
theorem c8_witness :
    extract_outline s0 dedupFirstStr d8 = extract_outline s0 dedupFirstStr d8 :=
  c8_amended_determinism s0 dedupFirstStr dedupFirstStr d8 (fun _ => rfl)

end PdfOutline
